import Mathlib

/-!
Verification of the publish-slot scheduling core of the linkedin-reposter
repository (src/app/scheduler.py and the scheduler-facing parts of
src/app/main.py), shallowly embedded in Lean.

Time model: a timestamp is a natural number of minutes since an epoch that
falls on a Monday at 00:00, chosen earlier than all data.  Then
`dayOf t = t / 1440` is the calendar date, `weekdayOf t = dayOf t % 7` is
Python's `datetime.weekday()` (Monday = 0), and `hourOf t = t % 1440 / 60`
is `datetime.hour`.  All code under study manipulates whole minutes
(spacing, backoff, jitter and `replace(minute=0, second=0, microsecond=0)`
boundaries), so minute granularity is faithful.
-/

namespace Reposter

def minutesPerDay : Nat := 1440

def dayOf (t : Nat) : Nat := t / 1440

def weekdayOf (t : Nat) : Nat := dayOf t % 7

def hourOf (t : Nat) : Nat := t % 1440 / 60

/-- `ScheduledPostStatus` from src/app/models.py. -/
inductive ScheduledPostStatus where
  | pending
  | published
  | failed
  | cancelled
deriving DecidableEq

/-- The four golden-hour tiers produced by `_calculate_priority`
(stored in the DB as the strings URGENT/GOOD/OK/STALE). -/
inductive PriorityLevel where
  | urgent
  | good
  | ok
  | stale
deriving DecidableEq

/-- A row of the `scheduled_posts` table (src/app/models.py,
class ScheduledPost). -/
structure ScheduledPost where
  id : Nat
  post_id : Nat
  variant_id : Nat
  approved_at : Nat
  scheduled_for : Nat
  published_at : Option Nat
  status : ScheduledPostStatus
  retry_count : Nat
  last_error : Option String
  priority_level : Option PriorityLevel
  priority_score : Option Nat
  post_age_hours : Option Rat
deriving DecidableEq

/-- A row of the `linkedin_posts` table, restricted to the field the
scheduler reads (src/app/models.py, class LinkedInPost). -/
structure LinkedInPostRow where
  id : Nat
  original_post_date : Option Nat
deriving DecidableEq

/-- The scheduling configuration read in `PostScheduler.__init__`
(src/app/config.py defaults: 3, 90, 6, 21, true). -/
structure Settings where
  daily_post_limit : Nat
  min_spacing_minutes : Nat
  posting_hour_start : Nat
  posting_hour_end : Nat
  posting_weekdays_only : Bool
deriving DecidableEq

/-- Golden hour thresholds hardcoded in `PostScheduler.__init__`. -/
def goldenHourUrgent : Rat := 3
def goldenHourGood : Rat := 12
def goldenHourOk : Rat := 24

/-- `PostScheduler._calculate_priority` (scheduler.py 305-356) as a function
of the post age in hours (`None` when `original_post_date` is absent).
Returns the (level, priority_score) pair of the dict the code builds. -/
def calculate_priority (age_hours : Option Rat) : PriorityLevel × Nat :=
  match age_hours with
  | none => (.ok, 50)
  | some a =>
    if a < goldenHourUrgent then (.urgent, 100)
    else if a < goldenHourGood then (.good, 75)
    else if a < goldenHourOk then (.ok, 50)
    else (.stale, 25)

/-- `PostScheduler._normalize_to_posting_hours` (scheduler.py 238-254). -/
def normalize_to_posting_hours (cfg : Settings) (t : Nat) : Nat :=
  if hourOf t < cfg.posting_hour_start then
    dayOf t * 1440 + cfg.posting_hour_start * 60
  else if cfg.posting_hour_end ≤ hourOf t then
    (dayOf t + 1) * 1440 + cfg.posting_hour_start * 60
  else
    t

/-- `PostScheduler._move_to_next_weekday` (scheduler.py 256-269).
In the source, `days_ahead = 0 - dt.weekday()` is always `≤ 0`, so the
`+= 7` branch always fires and `days_ahead = 7 - weekday`. -/
def move_to_next_weekday (cfg : Settings) (t : Nat) : Nat :=
  (dayOf t + (7 - weekdayOf t)) * 1440 + cfg.posting_hour_start * 60

/-- `PostScheduler._move_to_next_day` (scheduler.py 271-279). -/
def move_to_next_day (cfg : Settings) (t : Nat) : Nat :=
  (dayOf t + 1) * 1440 + cfg.posting_hour_start * 60

/-- `PostScheduler._count_posts_on_day` (scheduler.py 281-286). -/
def count_posts_on_day (scheduled_posts : List ScheduledPost) (target_date : Nat) : Nat :=
  (scheduled_posts.filter (fun p => decide (dayOf p.scheduled_for = target_date))).length

/-- `PostScheduler._get_last_scheduled_time_before` (scheduler.py 288-303). -/
def get_last_scheduled_time_before (scheduled_posts : List ScheduledPost)
    (candidate_time : Nat) : Option Nat :=
  let posts_before := scheduled_posts.filter (fun p => decide (p.scheduled_for < candidate_time))
  (posts_before.map (·.scheduled_for)).max?

/-- Stable insertion into a sorted list: the new element goes in front of the
first element it compares `le` to, so an earlier element precedes later
elements with an equal key (this matches Python's stable `sort` and the
database's `ORDER BY`). -/
def insertLe {α : Type} (le : α → α → Bool) (a : α) : List α → List α
  | [] => [a]
  | b :: l => if le a b then a :: b :: l else b :: insertLe le a l

/-- Stable insertion sort used to model `ORDER BY scheduled_for` and
Python's stable `list.sort`. -/
def sortLe {α : Type} (le : α → α → Bool) : List α → List α
  | [] => []
  | a :: l => insertLe le a (sortLe le l)

def sched_le (a b : ScheduledPost) : Bool :=
  decide (a.scheduled_for ≤ b.scheduled_for)

/-- `PostScheduler._get_all_scheduled_posts` (scheduler.py 217-236): the
reservations consulted by the slot search — rows whose status is PENDING or
PUBLISHED and whose `scheduled_for` is at least `now` minus 7 days, ordered
by `scheduled_for`. -/
def get_all_scheduled_posts (now : Nat) (table : List ScheduledPost) : List ScheduledPost :=
  let cutoff := now - 7 * 1440
  sortLe sched_le (table.filter (fun r =>
    decide ((r.status = .pending ∨ r.status = .published) ∧ cutoff ≤ r.scheduled_for)))

/-- The candidate seed of `assign_publish_slot` (scheduler.py 104-124):
URGENT, GOOD and OK seed at `now`; STALE seeds after the maximum
`scheduled_for` of the queue, or at `now` when the queue is empty. -/
def seed_candidate (cfg : Settings) (level : PriorityLevel)
    (scheduled_posts : List ScheduledPost) (now : Nat) : Nat :=
  match level with
  | .urgent => now
  | .good => now
  | .stale =>
    match (scheduled_posts.map (·.scheduled_for)).max? with
    | some last_scheduled => last_scheduled + cfg.min_spacing_minutes
    | none => now
  | .ok => now

/-- One `continue` target of the slot-search loop (scheduler.py 130-167):
given the candidate at the top of the loop body, the candidate value the
next pass would start from (for a candidate that passes every check this is
the normalized candidate itself). -/
def slot_search_next (cfg : Settings) (scheduled_posts : List ScheduledPost) (cand : Nat) : Nat :=
  let c := normalize_to_posting_hours cfg cand
  if cfg.posting_weekdays_only ∧ (weekdayOf c = 5 ∨ weekdayOf c = 6) then
    move_to_next_weekday cfg c
  else if cfg.daily_post_limit ≤ count_posts_on_day scheduled_posts (dayOf c) then
    move_to_next_day cfg c
  else
    match get_last_scheduled_time_before scheduled_posts c with
    | some last =>
      if c - last < cfg.min_spacing_minutes then
        c + (cfg.min_spacing_minutes - (c - last))
      else c
    | none => c

/-- The bounded slot-search loop of `assign_publish_slot`
(scheduler.py 126-167), with explicit fuel (`max_iterations = 365` at the
call site).  Returns the final candidate, the number of loop-body passes
executed, and whether a pass ended in the `break` (valid slot found).
When the fuel runs out the loop exits with the last computed candidate. -/
def assign_slot_loop (cfg : Settings) (scheduled_posts : List ScheduledPost) :
    Nat → Nat → Nat × Nat × Bool
  | 0, cand => (cand, 0, false)
  | fuel + 1, cand =>
    let c := normalize_to_posting_hours cfg cand
    if cfg.posting_weekdays_only ∧ (weekdayOf c = 5 ∨ weekdayOf c = 6) then
      let r := assign_slot_loop cfg scheduled_posts fuel (move_to_next_weekday cfg c)
      (r.1, r.2.1 + 1, r.2.2)
    else if cfg.daily_post_limit ≤ count_posts_on_day scheduled_posts (dayOf c) then
      let r := assign_slot_loop cfg scheduled_posts fuel (move_to_next_day cfg c)
      (r.1, r.2.1 + 1, r.2.2)
    else
      match get_last_scheduled_time_before scheduled_posts c with
      | some last =>
        if c - last < cfg.min_spacing_minutes then
          let r := assign_slot_loop cfg scheduled_posts fuel
            (c + (cfg.min_spacing_minutes - (c - last)))
          (r.1, r.2.1 + 1, r.2.2)
        else (c, 1, true)
      | none => (c, 1, true)

def max_iterations : Nat := 365

/-- The retry bookkeeping of `publish_scheduled_post` on a publish failure
(src/app/main.py 140-198; both the repost-failed branch and the exception
handler mutate the reservation identically): increment `retry_count`,
record `last_error`; at `max_retries = 5` mark FAILED, otherwise reschedule
to `now` plus the fixed 30-minute backoff. -/
def publish_failure_update (now : Nat) (err : String) (sp : ScheduledPost) : ScheduledPost :=
  let sp1 := { sp with retry_count := sp.retry_count + 1, last_error := some err }
  if 5 ≤ sp1.retry_count then
    { sp1 with status := .failed }
  else
    { sp1 with scheduled_for := now + 30 }

/-- `PostScheduler.cancel_scheduled_post` (scheduler.py 456-495): raises on
a non-PENDING reservation, otherwise sets the status to CANCELLED. -/
def cancel_scheduled_post (sp : ScheduledPost) : Except String ScheduledPost :=
  if sp.status ≠ .pending then
    .error "Cannot cancel post in this status"
  else
    .ok { sp with status := .cancelled }

/-- The `priority_order` dict of `scrub_schedule_internal`
(main.py 1705): URGENT 0, GOOD 1, OK 2, STALE 3, None 4. -/
def priorityOrder : Option PriorityLevel → Nat
  | some .urgent => 0
  | some .good => 1
  | some .ok => 2
  | some .stale => 3
  | none => 4

/-- The sort key of scrub step 3 (main.py 1706): ascending by
`(priority_order, scheduled_for)`. -/
def priority_key_le (a b : ScheduledPost) : Bool :=
  decide (priorityOrder a.priority_level < priorityOrder b.priority_level ∨
    (priorityOrder a.priority_level = priorityOrder b.priority_level ∧
      a.scheduled_for ≤ b.scheduled_for))

/-- The PENDING reservations ordered by `scheduled_for` — the query scrub
issues at main.py 1661-1666 and again at 1693-1698. -/
def pending_sorted (table : List ScheduledPost) : List ScheduledPost :=
  sortLe sched_le (table.filter (fun r => decide (r.status = .pending)))

/-- The duplicate scan of scrub step 1 (main.py 1674-1682): walk the
time-ordered PENDING list, remember each first-seen `post_id`, and collect
the row ids of every later reservation repeating a seen `post_id`. -/
def duplicates_to_delete (posts : List ScheduledPost) (seen_post_ids : List Nat) : List Nat :=
  match posts with
  | [] => []
  | p :: ps =>
    if p.post_id ∈ seen_post_ids then
      p.id :: duplicates_to_delete ps seen_post_ids
    else
      duplicates_to_delete ps (p.post_id :: seen_post_ids)

/-- Specification view of scrub's dedup step: walking the time-ordered
PENDING list, keep each first occurrence of a `post_id` and drop the rest.
Equal to filtering out the rows collected by `duplicates_to_delete`
whenever the row ids are distinct (which the primary key guarantees). -/
def keepFirst : List ScheduledPost → List Nat → List ScheduledPost
  | [], _ => []
  | p :: ps, seen =>
    if p.post_id ∈ seen then keepFirst ps seen
    else p :: keepFirst ps (p.post_id :: seen)

/-- The inner slot loop of scrub step 4 (main.py 1723-1736).  Unlike the
loop in `assign_publish_slot`, the weekend check runs on the raw candidate
BEFORE posting-hours normalization, and the loop breaks immediately after
normalizing — so a Friday-evening candidate is normalized to Saturday
morning and accepted. -/
def scrub_find_slot (cfg : Settings) : Nat → Nat → Nat
  | 0, current => current
  | fuel + 1, current =>
    if cfg.posting_weekdays_only ∧ (weekdayOf current = 5 ∨ weekdayOf current = 6) then
      scrub_find_slot cfg fuel (move_to_next_weekday cfg current)
    else
      normalize_to_posting_hours cfg current

/-- The reflow walk of scrub step 4 (main.py 1719-1749): assign each post in
order the slot found from the running candidate, then advance the candidate
by the assigned time plus `min_spacing_minutes`.  Returns the reservations
with their new `scheduled_for`. -/
def scrub_reflow (cfg : Settings) : List ScheduledPost → Nat → List ScheduledPost
  | [], _ => []
  | p :: ps, current =>
    let t := scrub_find_slot cfg max_iterations current
    { p with scheduled_for := t } :: scrub_reflow cfg ps (t + cfg.min_spacing_minutes)

/-- Scrub step 1 (main.py 1673-1690): delete the rows collected by the
duplicate scan from the table. -/
def scrub_dedup_table (table : List ScheduledPost) : List ScheduledPost :=
  table.filter (fun r => decide (r.id ∉ duplicates_to_delete (pending_sorted table) []))

/-- Scrub step 3 (main.py 1704-1706): stable sort of the remaining PENDING
reservations by `(priority_order, scheduled_for)`. -/
def scrub_sorted (pending2 : List ScheduledPost) : List ScheduledPost :=
  sortLe priority_key_le pending2

/-- Scrub step 4 start point (main.py 1713-1715):
`max(earliest currently-scheduled time, now)`. -/
def scrub_start (now : Nat) (pending2 : List ScheduledPost) : Nat :=
  max ((((scrub_sorted pending2).map (·.scheduled_for)).min?).getD now) now

/-- Scrub step 4 (main.py 1717-1749): walk the priority-sorted list from
the normalized start time and compute each reservation's new
`scheduled_for`. -/
def scrub_moved (cfg : Settings) (now : Nat) (pending2 : List ScheduledPost) :
    List ScheduledPost :=
  scrub_reflow cfg (scrub_sorted pending2)
    (normalize_to_posting_hours cfg (scrub_start now pending2))

/-- The in-place mutation `post.scheduled_for = current_time` of scrub
step 4, seen from the table: each row whose id received an assignment gets
its new time, every other row is untouched. -/
def scrub_updater (cfg : Settings) (now : Nat) (pending2 : List ScheduledPost)
    (r : ScheduledPost) : ScheduledPost :=
  match ((scrub_moved cfg now pending2).map
      (fun q => (q.id, q.scheduled_for))).lookup r.id with
  | some t => { r with scheduled_for := t }
  | none => r

def scrub_apply (cfg : Settings) (now : Nat)
    (table1 pending2 : List ScheduledPost) : List ScheduledPost :=
  table1.map (scrub_updater cfg now pending2)

/-- `scrub_schedule_internal` (main.py 1648-1752) as a function on the
reservation table: deduplicate PENDING rows by `post_id` (keeping the
first in `scheduled_for` order), then reassign every remaining PENDING
row's `scheduled_for` by the priority-ordered reflow.  Rows that are not
PENDING are untouched. -/
def scrub_schedule_internal (cfg : Settings) (now : Nat)
    (table : List ScheduledPost) : List ScheduledPost :=
  if (pending_sorted table).isEmpty then table
  else
    let table1 := scrub_dedup_table table
    if (pending_sorted table1).isEmpty then table1
    else scrub_apply cfg now table1 (pending_sorted table1)

/-- `cleanup_stale_schedule` (main.py 561-625) restricted to its decision
per examined row.  For each PENDING reservation joined with its content
row: skip when the content row or its `original_post_date` is missing;
never remove URGENT; delete when the original date is strictly before
`now - dead_threshold_days`; otherwise flag as stale when strictly before
`now - stale_threshold_days`; otherwise keep silently. -/
inductive SweepAction where
  | keep
  | remove
  | flagStale
deriving DecidableEq

def sweep_classify (dead_threshold_days stale_threshold_days now : Nat)
    (sp : ScheduledPost) (post : Option LinkedInPostRow) : SweepAction :=
  match post with
  | none => .keep
  | some row =>
    match row.original_post_date with
    | none => .keep
    | some d =>
      if sp.priority_level = some .urgent then .keep
      else if d < now - dead_threshold_days * 1440 then .remove
      else if d < now - stale_threshold_days * 1440 then .flagStale
      else .keep

/-- The full sweep over the PENDING reservations (main.py 561-625): returns
(surviving table, deleted reservations, reservations reported stale).
Non-PENDING rows are not part of the query and survive untouched. -/
def cleanup_stale_schedule (dead_threshold_days stale_threshold_days now : Nat) :
    List (ScheduledPost × Option LinkedInPostRow) →
    List (ScheduledPost × Option LinkedInPostRow) × List ScheduledPost × List ScheduledPost
  | [] => ([], [], [])
  | item :: items =>
    let r := cleanup_stale_schedule dead_threshold_days stale_threshold_days now items
    if item.1.status = .pending then
      match sweep_classify dead_threshold_days stale_threshold_days now item.1 item.2 with
      | .keep => (item :: r.1, r.2.1, r.2.2)
      | .remove => (r.1, item.1 :: r.2.1, r.2.2)
      | .flagStale => (item :: r.1, r.2.1, item.1 :: r.2.2)
    else
      (item :: r.1, r.2.1, r.2.2)

/-- `scheduled_for` lies inside the configured posting window. -/
def in_posting_hours (cfg : Settings) (t : Nat) : Prop :=
  cfg.posting_hour_start ≤ hourOf t ∧ hourOf t < cfg.posting_hour_end

/-- The default configuration from src/app/config.py. -/
def defaultSettings : Settings := ⟨3, 90, 6, 21, true⟩

/-- A pathological configuration with `daily_post_limit = 0` (the spec's
example of a slot search that can never succeed). -/
def zeroLimitSettings : Settings := ⟨0, 90, 6, 21, false⟩

/-- Concrete reservation rows used to instantiate the theorems. -/
def mkPost (i pid sched : Nat) (st : ScheduledPostStatus) : ScheduledPost :=
  ⟨i, pid, i, 0, sched, none, st, 0, none, none, none, none⟩

/-! ### Properties of the stable insertion sort -/

theorem insertLe_perm {α : Type} (le : α → α → Bool) (a : α) :
    ∀ l : List α, (insertLe le a l).Perm (a :: l)
  | [] => List.Perm.refl _
  | b :: l => by
    unfold insertLe
    split
    · exact List.Perm.refl _
    · exact ((insertLe_perm le a l).cons b).trans (List.Perm.swap a b l)

theorem sortLe_perm {α : Type} (le : α → α → Bool) :
    ∀ l : List α, (sortLe le l).Perm l
  | [] => List.Perm.refl _
  | a :: l => (insertLe_perm le a (sortLe le l)).trans ((sortLe_perm le l).cons a)

theorem mem_insertLe {α : Type} {le : α → α → Bool} {a x : α} {l : List α} :
    x ∈ insertLe le a l ↔ x = a ∨ x ∈ l := by
  rw [(insertLe_perm le a l).mem_iff, List.mem_cons]

theorem mem_sortLe {α : Type} {le : α → α → Bool} {x : α} {l : List α} :
    x ∈ sortLe le l ↔ x ∈ l :=
  (sortLe_perm le l).mem_iff

theorem insertLe_pairwise {α : Type} {le : α → α → Bool}
    (htrans : ∀ a b c, le a b = true → le b c = true → le a c = true)
    (htot : ∀ a b, le a b = true ∨ le b a = true) (a : α) :
    ∀ l : List α, l.Pairwise (fun x y => le x y = true) →
      (insertLe le a l).Pairwise (fun x y => le x y = true)
  | [], _ => List.pairwise_singleton _ a
  | b :: l, h => by
    obtain ⟨hb, hl⟩ := List.pairwise_cons.mp h
    unfold insertLe
    split
    · rename_i hab
      exact List.pairwise_cons.mpr ⟨fun c hc => by
        rcases List.mem_cons.mp hc with rfl | hc
        · exact hab
        · exact htrans a b c hab (hb c hc), h⟩
    · rename_i hab
      have hba : le b a = true := (htot a b).resolve_left hab
      refine List.pairwise_cons.mpr ⟨fun c hc => ?_, insertLe_pairwise htrans htot a l hl⟩
      rcases mem_insertLe.mp hc with rfl | hc
      · exact hba
      · exact hb c hc

theorem sortLe_pairwise {α : Type} {le : α → α → Bool}
    (htrans : ∀ a b c, le a b = true → le b c = true → le a c = true)
    (htot : ∀ a b, le a b = true ∨ le b a = true) :
    ∀ l : List α, (sortLe le l).Pairwise (fun x y => le x y = true)
  | [] => List.Pairwise.nil
  | a :: l => insertLe_pairwise htrans htot a (sortLe le l) (sortLe_pairwise htrans htot l)

theorem sortLe_eq_of_pairwise {α : Type} {le : α → α → Bool} :
    ∀ {l : List α}, l.Pairwise (fun x y => le x y = true) → sortLe le l = l
  | [], _ => rfl
  | a :: l, h => by
    obtain ⟨ha, hl⟩ := List.pairwise_cons.mp h
    unfold sortLe
    rw [sortLe_eq_of_pairwise hl]
    cases l with
    | nil => rfl
    | cons b l => unfold insertLe; rw [if_pos (ha b (List.mem_cons_self b l))]

/-- Two permuted lists, one pairwise `R`-increasing and the other pairwise
`S`-increasing, are equal when `R` and the reverse of `S` are incompatible
(e.g. `R` strict and `S` non-strict over the same key). -/
theorem eq_of_perm_of_pairwise {α : Type} {R S : α → α → Prop}
    (h : ∀ a b, R a b → S b a → False) :
    ∀ {l₁ l₂ : List α}, l₁.Perm l₂ → l₁.Pairwise R → l₂.Pairwise S → l₁ = l₂
  | [], l₂, hp, _, _ => hp.nil_eq
  | a :: l₁, [], hp, _, _ => absurd hp.eq_nil (by simp)
  | a :: l₁, b :: l₂, hp, h₁, h₂ => by
    obtain ⟨ha, h₁'⟩ := List.pairwise_cons.mp h₁
    obtain ⟨hb, h₂'⟩ := List.pairwise_cons.mp h₂
    by_cases hab : a = b
    · subst hab
      rw [eq_of_perm_of_pairwise h hp.cons_inv h₁' h₂']
    · exfalso
      have hamem : a ∈ b :: l₂ := hp.mem_iff.mp (List.mem_cons_self a l₁)
      have ha2 : a ∈ l₂ := by
        rcases List.mem_cons.mp hamem with h' | h'
        · exact absurd h' hab
        · exact h'
      have hbmem : b ∈ a :: l₁ := hp.symm.mem_iff.mp (List.mem_cons_self b l₂)
      have hb1 : b ∈ l₁ := by
        rcases List.mem_cons.mp hbmem with h' | h'
        · exact absurd h'.symm hab
        · exact h'
      exact h a b (ha b hb1) (hb a ha2)

/-! ### Arithmetic facts about the time model -/

theorem le_normalize (cfg : Settings) (t : Nat) :
    t ≤ normalize_to_posting_hours cfg t := by
  unfold normalize_to_posting_hours dayOf hourOf
  split
  · omega
  · split <;> omega

theorem normalize_in_hours (cfg : Settings) (t : Nat)
    (hse : cfg.posting_hour_start < cfg.posting_hour_end)
    (he : cfg.posting_hour_end ≤ 24) :
    in_posting_hours cfg (normalize_to_posting_hours cfg t) := by
  unfold in_posting_hours normalize_to_posting_hours dayOf hourOf
  split
  · constructor <;> omega
  · split
    · constructor <;> omega
    · constructor <;> omega

theorem normalize_eq_of_in_hours {cfg : Settings} {t : Nat}
    (h : in_posting_hours cfg t) : normalize_to_posting_hours cfg t = t := by
  obtain ⟨h₁, h₂⟩ := h
  unfold normalize_to_posting_hours
  rw [if_neg (by omega), if_neg (by omega)]

theorem le_move_to_next_weekday (cfg : Settings) (t : Nat) :
    t ≤ move_to_next_weekday cfg t := by
  unfold move_to_next_weekday weekdayOf dayOf
  omega

theorem weekday_move_to_next_weekday (cfg : Settings) (t : Nat)
    (hs : cfg.posting_hour_start < 24) :
    weekdayOf (move_to_next_weekday cfg t) = 0 := by
  unfold move_to_next_weekday weekdayOf dayOf
  omega

theorem move_to_next_weekday_in_hours (cfg : Settings) (t : Nat)
    (hse : cfg.posting_hour_start < cfg.posting_hour_end)
    (he : cfg.posting_hour_end ≤ 24) :
    in_posting_hours cfg (move_to_next_weekday cfg t) := by
  unfold in_posting_hours move_to_next_weekday weekdayOf dayOf hourOf
  constructor <;> omega

theorem le_move_to_next_day (cfg : Settings) (t : Nat) :
    t ≤ move_to_next_day cfg t := by
  unfold move_to_next_day dayOf
  omega

/-! ### C3 — the golden-hour priority classifier -/

/-- C3: the priority classifier is a pure function of age: with no source
timestamp it returns OK with score 50; for age < 3 h it returns URGENT with
score 100; for 3 ≤ age < 12 it returns GOOD with score 75; for
12 ≤ age < 24 it returns OK with score 50; and for age ≥ 24 it returns
STALE with score 25. -/
theorem C3_priority_classifier (a : Rat) :
    calculate_priority none = (.ok, 50) ∧
    (a < 3 → calculate_priority (some a) = (.urgent, 100)) ∧
    (3 ≤ a → a < 12 → calculate_priority (some a) = (.good, 75)) ∧
    (12 ≤ a → a < 24 → calculate_priority (some a) = (.ok, 50)) ∧
    (24 ≤ a → calculate_priority (some a) = (.stale, 25)) := by
  refine ⟨rfl, ?_, ?_, ?_, ?_⟩
  · intro h
    simp only [calculate_priority, goldenHourUrgent, goldenHourGood, goldenHourOk]
    rw [if_pos h]
  · intro h₁ h₂
    simp only [calculate_priority, goldenHourUrgent, goldenHourGood, goldenHourOk]
    rw [if_neg (by linarith), if_pos h₂]
  · intro h₁ h₂
    simp only [calculate_priority, goldenHourUrgent, goldenHourGood, goldenHourOk]
    rw [if_neg (by linarith), if_neg (by linarith), if_pos h₂]
  · intro h₁
    simp only [calculate_priority, goldenHourUrgent, goldenHourGood, goldenHourOk]
    rw [if_neg (by linarith), if_neg (by linarith), if_neg (by linarith)]

/-- C3 witness: the theorem applied at the concrete ages 1, 5, 15, 30 h. -/
theorem C3_priority_classifier_witness :
    calculate_priority (some 1) = (.urgent, 100) ∧
    calculate_priority (some 5) = (.good, 75) ∧
    calculate_priority (some 15) = (.ok, 50) ∧
    calculate_priority (some 30) = (.stale, 25) :=
  ⟨(C3_priority_classifier 1).2.1 (by norm_num),
   (C3_priority_classifier 5).2.2.1 (by norm_num) (by norm_num),
   (C3_priority_classifier 15).2.2.2.1 (by norm_num) (by norm_num),
   (C3_priority_classifier 30).2.2.2.2 (by norm_num)⟩

/-! ### C2 — the candidate seed of `assign_publish_slot` -/

/-- C2: the initial candidate is seeded by tier: URGENT, GOOD and OK seed
at `now`; STALE with a non-empty consulted queue seeds at the maximum
`scheduled_for` plus `min_spacing_minutes`; STALE with an empty queue seeds
at `now`. -/
theorem C2_seed_by_tier (cfg : Settings) (posts : List ScheduledPost) (now : Nat) :
    seed_candidate cfg .urgent posts now = now ∧
    seed_candidate cfg .good posts now = now ∧
    seed_candidate cfg .ok posts now = now ∧
    (posts = [] → seed_candidate cfg .stale posts now = now) ∧
    ∀ m, (posts.map (·.scheduled_for)).max? = some m →
      seed_candidate cfg .stale posts now = m + cfg.min_spacing_minutes := by
  refine ⟨rfl, rfl, rfl, ?_, ?_⟩
  · rintro rfl
    rfl
  · intro m hm
    unfold seed_candidate
    rw [hm]

/-- C2 witness: the theorem applied to a concrete two-element queue whose
maximum `scheduled_for` is 500, and to the empty queue. -/
theorem C2_seed_by_tier_witness :
    seed_candidate defaultSettings .urgent [mkPost 1 1 500 .pending] 100 = 100 ∧
    seed_candidate defaultSettings .stale [] 100 = 100 ∧
    seed_candidate defaultSettings .stale
      [mkPost 1 1 300 .pending, mkPost 2 2 500 .pending] 100 = 500 + 90 :=
  ⟨(C2_seed_by_tier defaultSettings [mkPost 1 1 500 .pending] 100).1,
   (C2_seed_by_tier defaultSettings [] 100).2.2.2.1 rfl,
   (C2_seed_by_tier defaultSettings
      [mkPost 1 1 300 .pending, mkPost 2 2 500 .pending] 100).2.2.2.2 500 (by decide)⟩

/-! ### C8 — retry bookkeeping on publish failure -/

/-- C8: a publish failure on a PENDING reservation increments `retry_count`
and records `last_error`; below `max_retries = 5` the reservation stays
PENDING and is rescheduled to `now` plus the fixed 30-minute backoff; at
`max_retries` it becomes FAILED and keeps its `scheduled_for`. -/
theorem C8_publish_failure (sp : ScheduledPost) (now : Nat) (err : String)
    (hp : sp.status = .pending) :
    (publish_failure_update now err sp).retry_count = sp.retry_count + 1 ∧
    (publish_failure_update now err sp).last_error = some err ∧
    (sp.retry_count + 1 < 5 →
      (publish_failure_update now err sp).status = .pending ∧
      (publish_failure_update now err sp).scheduled_for = now + 30) ∧
    (5 ≤ sp.retry_count + 1 →
      (publish_failure_update now err sp).status = .failed ∧
      (publish_failure_update now err sp).scheduled_for = sp.scheduled_for) := by
  unfold publish_failure_update
  by_cases h5 : 5 ≤ sp.retry_count + 1
  · rw [if_pos h5]
    exact ⟨rfl, rfl, fun h => absurd h5 (by omega), fun _ => ⟨rfl, rfl⟩⟩
  · rw [if_neg h5]
    exact ⟨rfl, rfl, fun _ => ⟨hp, rfl⟩, fun h => absurd h h5⟩

/-- C8 witness: the theorem applied to a fresh PENDING reservation
(`retry_count = 0`) and to one at its fourth retry (`retry_count = 4`). -/
theorem C8_publish_failure_witness :
    ((publish_failure_update 200 "boom" (mkPost 1 1 100 .pending)).status = .pending ∧
      (publish_failure_update 200 "boom" (mkPost 1 1 100 .pending)).scheduled_for = 230) ∧
    ((publish_failure_update 200 "boom"
        { mkPost 1 1 100 .pending with retry_count := 4 }).status = .failed ∧
      (publish_failure_update 200 "boom"
        { mkPost 1 1 100 .pending with retry_count := 4 }).scheduled_for = 100) :=
  ⟨(C8_publish_failure (mkPost 1 1 100 .pending) 200 "boom" rfl).2.2.1 (by decide),
   (C8_publish_failure { mkPost 1 1 100 .pending with retry_count := 4 }
      200 "boom" rfl).2.2.2 (by decide)⟩

/-! ### C10 — cancelling a scheduled post -/

/-- C10: cancelling a PENDING reservation sets its status to CANCELLED and
changes no other field, returning the updated row rather than deleting it;
cancelling a non-PENDING reservation raises an error. -/
theorem C10_cancel_frame (sp : ScheduledPost) :
    (sp.status = .pending →
      cancel_scheduled_post sp = .ok { sp with status := .cancelled } ∧
      ∀ sp', cancel_scheduled_post sp = .ok sp' →
        sp'.status = .cancelled ∧
        sp'.id = sp.id ∧ sp'.post_id = sp.post_id ∧ sp'.variant_id = sp.variant_id ∧
        sp'.approved_at = sp.approved_at ∧ sp'.scheduled_for = sp.scheduled_for ∧
        sp'.published_at = sp.published_at ∧ sp'.retry_count = sp.retry_count ∧
        sp'.last_error = sp.last_error ∧ sp'.priority_level = sp.priority_level ∧
        sp'.priority_score = sp.priority_score ∧
        sp'.post_age_hours = sp.post_age_hours) ∧
    (sp.status ≠ .pending → ∃ msg, cancel_scheduled_post sp = .error msg) := by
  constructor
  · intro hp
    have hok : cancel_scheduled_post sp = .ok { sp with status := .cancelled } := by
      unfold cancel_scheduled_post
      rw [if_neg (by simp [hp])]
    refine ⟨hok, fun sp' h => ?_⟩
    rw [hok] at h
    cases h
    exact ⟨rfl, rfl, rfl, rfl, rfl, rfl, rfl, rfl, rfl, rfl, rfl, rfl⟩
  · intro hp
    unfold cancel_scheduled_post
    rw [if_pos hp]
    exact ⟨_, rfl⟩

/-- C10 witness: the theorem applied to a concrete PENDING reservation and
to a concrete PUBLISHED one. -/
theorem C10_cancel_frame_witness :
    cancel_scheduled_post (mkPost 1 1 100 .pending) =
      .ok { mkPost 1 1 100 .pending with status := .cancelled } ∧
    ∃ msg, cancel_scheduled_post (mkPost 2 2 100 .published) = .error msg :=
  ⟨((C10_cancel_frame (mkPost 1 1 100 .pending)).1 rfl).1,
   (C10_cancel_frame (mkPost 2 2 100 .published)).2 (by decide)⟩

/-! ### C1 — the consulted reservation set and the daily cap -/

/-- Splitting the daily count of a PENDING/PUBLISHED-only list by status. -/
theorem count_posts_split (d : Nat) : ∀ l : List ScheduledPost,
    (∀ p ∈ l, p.status = .pending ∨ p.status = .published) →
    count_posts_on_day l d =
      count_posts_on_day (l.filter (fun p => decide (p.status = .pending))) d +
      count_posts_on_day (l.filter (fun p => decide (p.status = .published))) d := by
  intro l
  induction l with
  | nil => intro _; rfl
  | cons p l ih =>
    intro h
    have hl := ih (fun q hq => h q (List.mem_cons_of_mem p hq))
    rcases h p (List.mem_cons_self p l) with hp | hp <;>
      by_cases hd : dayOf p.scheduled_for = d <;>
        simp [count_posts_on_day, List.filter_cons, hp, hd] at hl ⊢ <;> omega

/-- C1 counterexample: the claim fails on concrete inputs.  A PENDING
reservation with `scheduled_for` older than 7 days is NOT part of the
consulted set (`now = 20160`, `scheduled_for = 0`), and the daily-cap count
over the consulted set DOES count a PUBLISHED reservation: for a table
holding one PUBLISHED reservation scheduled on day 14, the cap count for
day 14 is 1, while excluding PUBLISHED rows it would be 0. -/
theorem C1_counterexample :
    (mkPost 2 2 0 .pending).status = .pending ∧
    mkPost 2 2 0 .pending ∉ get_all_scheduled_posts 20160 [mkPost 2 2 0 .pending] ∧
    (mkPost 1 1 20160 .published).status = .published ∧
    count_posts_on_day (get_all_scheduled_posts 20160 [mkPost 1 1 20160 .published]) 14 = 1 ∧
    count_posts_on_day
      ((get_all_scheduled_posts 20160 [mkPost 1 1 20160 .published]).filter
        (fun p => decide (¬ p.status = .published))) 14 = 0 := by
  decide

/-- C1 amended: the set consulted by the slot search consists of the
reservations whose status is PENDING or PUBLISHED AND whose
`scheduled_for` is within the last 7 days (the window also restricts
PENDING rows), and the daily-cap count over that set counts every
consulted reservation sharing the candidate's date — it decomposes as the
PENDING count plus the PUBLISHED count, so PUBLISHED rows do count toward
the daily cap. -/
theorem C1_consulted_set_and_cap (now : Nat) (table : List ScheduledPost)
    (r : ScheduledPost) (d : Nat) :
    (r ∈ get_all_scheduled_posts now table ↔
      r ∈ table ∧ (r.status = .pending ∨ r.status = .published) ∧
        now - 7 * 1440 ≤ r.scheduled_for) ∧
    count_posts_on_day (get_all_scheduled_posts now table) d =
      count_posts_on_day ((get_all_scheduled_posts now table).filter
        (fun p => decide (p.status = .pending))) d +
      count_posts_on_day ((get_all_scheduled_posts now table).filter
        (fun p => decide (p.status = .published))) d := by
  constructor
  · unfold get_all_scheduled_posts
    rw [mem_sortLe, List.mem_filter]
    simp
  · refine count_posts_split d _ (fun p hp => ?_)
    unfold get_all_scheduled_posts at hp
    rw [mem_sortLe, List.mem_filter] at hp
    have := hp.2
    simp at this
    exact this.1

/-- C1 amended witness: the characterization applied to a concrete table
holding one PUBLISHED row on day 14 and one PENDING row on day 14. -/
theorem C1_consulted_set_and_cap_witness :
    mkPost 1 1 20160 .published ∈
      get_all_scheduled_posts 20160 [mkPost 1 1 20160 .published, mkPost 2 2 20200 .pending] ∧
    count_posts_on_day
      (get_all_scheduled_posts 20160 [mkPost 1 1 20160 .published, mkPost 2 2 20200 .pending]) 14 =
    count_posts_on_day
      ((get_all_scheduled_posts 20160
        [mkPost 1 1 20160 .published, mkPost 2 2 20200 .pending]).filter
        (fun p => decide (p.status = .pending))) 14 +
    count_posts_on_day
      ((get_all_scheduled_posts 20160
        [mkPost 1 1 20160 .published, mkPost 2 2 20200 .pending]).filter
        (fun p => decide (p.status = .published))) 14 :=
  ⟨(C1_consulted_set_and_cap 20160
      [mkPost 1 1 20160 .published, mkPost 2 2 20200 .pending]
      (mkPost 1 1 20160 .published) 14).1.mpr (by decide),
   (C1_consulted_set_and_cap 20160
      [mkPost 1 1 20160 .published, mkPost 2 2 20200 .pending]
      (mkPost 1 1 20160 .published) 14).2⟩

/-! ### C9 — the staleness sweep -/

/-- C9 counterexample: at an age exactly equal to `dead_threshold_days`
the code keeps the reservation, while the claim requires deletion.  With
`now = 288000`, `dead = 7` days and `original_post_date = 277920` the age
is exactly 7 days; the reservation is PENDING and not URGENT, yet the
sweep deletes nothing and keeps the item (merely flagging it stale). -/
theorem C9_counterexample :
    (288000 : Nat) - 277920 = 7 * 1440 ∧
    ({ mkPost 1 1 1000 .pending with
        priority_level := some PriorityLevel.ok }).status = .pending ∧
    ({ mkPost 1 1 1000 .pending with
        priority_level := some PriorityLevel.ok }).priority_level ≠ some .urgent ∧
    (cleanup_stale_schedule 7 2 288000
      [({ mkPost 1 1 1000 .pending with priority_level := some PriorityLevel.ok },
        some ⟨1, some 277920⟩)]).2.1 = [] ∧
    ({ mkPost 1 1 1000 .pending with priority_level := some PriorityLevel.ok },
      some (⟨1, some 277920⟩ : LinkedInPostRow)) ∈
      (cleanup_stale_schedule 7 2 288000
        [({ mkPost 1 1 1000 .pending with priority_level := some PriorityLevel.ok },
          some ⟨1, some 277920⟩)]).1 := by
  decide

/-- C9 amended: the sweep keeps every non-PENDING row untouched, skips
PENDING rows whose content row or original timestamp is missing, never
removes URGENT rows, deletes a PENDING non-URGENT row exactly when its
original date is STRICTLY before `now - dead_threshold_days` (age strictly
greater than the threshold), flags it stale exactly when it is not dead
and its original date is strictly before `now - stale_threshold_days`, and
performs no rescheduling: the surviving rows are the original items,
unchanged, in order. -/
theorem C9_sweep_amended (dead stale now : Nat)
    (items : List (ScheduledPost × Option LinkedInPostRow)) :
    (cleanup_stale_schedule dead stale now items).1 =
      items.filter (fun item => decide (¬(item.1.status = .pending ∧
        sweep_classify dead stale now item.1 item.2 = .remove))) ∧
    (cleanup_stale_schedule dead stale now items).2.1 =
      (items.filter (fun item => decide (item.1.status = .pending ∧
        sweep_classify dead stale now item.1 item.2 = .remove))).map (·.1) ∧
    (cleanup_stale_schedule dead stale now items).2.2 =
      (items.filter (fun item => decide (item.1.status = .pending ∧
        sweep_classify dead stale now item.1 item.2 = .flagStale))).map (·.1) ∧
    (∀ sp row, sp.priority_level = some .urgent →
      sweep_classify dead stale now sp row ≠ .remove) ∧
    (∀ sp, sweep_classify dead stale now sp none = .keep) ∧
    (∀ sp (row : LinkedInPostRow), row.original_post_date = none →
      sweep_classify dead stale now sp (some row) = .keep) ∧
    (∀ sp (row : LinkedInPostRow) (dd : Nat), row.original_post_date = some dd →
      sp.priority_level ≠ some .urgent →
      (sweep_classify dead stale now sp (some row) = .remove ↔
        dd < now - dead * 1440) ∧
      (sweep_classify dead stale now sp (some row) = .flagStale ↔
        ¬ dd < now - dead * 1440 ∧ dd < now - stale * 1440)) := by
  refine ⟨?_, ?_, ?_, ?_, ?_, ?_, ?_⟩
  · induction items with
    | nil => rfl
    | cons item items ih =>
      by_cases hpend : item.1.status = .pending
      · rcases hcl : sweep_classify dead stale now item.1 item.2 with _ | _ | _ <;>
          simp [cleanup_stale_schedule, List.filter_cons, hpend, hcl, ih]
      · simp [cleanup_stale_schedule, List.filter_cons, hpend, ih]
  · induction items with
    | nil => rfl
    | cons item items ih =>
      by_cases hpend : item.1.status = .pending
      · rcases hcl : sweep_classify dead stale now item.1 item.2 with _ | _ | _ <;>
          simp [cleanup_stale_schedule, List.filter_cons, hpend, hcl, ih]
      · simp [cleanup_stale_schedule, List.filter_cons, hpend, ih]
  · induction items with
    | nil => rfl
    | cons item items ih =>
      by_cases hpend : item.1.status = .pending
      · rcases hcl : sweep_classify dead stale now item.1 item.2 with _ | _ | _ <;>
          simp [cleanup_stale_schedule, List.filter_cons, hpend, hcl, ih]
      · simp [cleanup_stale_schedule, List.filter_cons, hpend, ih]
  · intro sp row hu
    rcases row with _ | row
    · simp [sweep_classify]
    · rcases hrow : row.original_post_date with _ | dd
      · simp [sweep_classify, hrow]
      · simp [sweep_classify, hrow, hu]
  · intro sp
    rfl
  · intro sp row h
    simp only [sweep_classify]
    rw [h]
  · intro sp row dd hdd hu
    simp only [sweep_classify]
    rw [hdd]
    dsimp only
    rw [if_neg hu]
    by_cases h₁ : dd < now - dead * 1440
    · rw [if_pos h₁]
      constructor
      · simp [h₁]
      · simp [h₁]
    · rw [if_neg h₁]
      by_cases h₂ : dd < now - stale * 1440
      · rw [if_pos h₂]
        constructor
        · simp [h₁]
        · simp [h₁, h₂]
      · rw [if_neg h₂]
        constructor
        · simp [h₁]
        · simp [h₁, h₂]

/-- C9 amended witness: the characterization applied to a concrete
two-item table — a clearly dead OK item (age 10 days) is deleted and an
URGENT item of the same age is kept. -/
theorem C9_sweep_amended_witness :
    (cleanup_stale_schedule 7 2 288000
      [({ mkPost 1 1 1000 .pending with priority_level := some PriorityLevel.ok },
        some ⟨1, some 273600⟩),
       ({ mkPost 2 2 2000 .pending with priority_level := some PriorityLevel.urgent },
        some ⟨2, some 273600⟩)]).2.1 =
      [{ mkPost 1 1 1000 .pending with priority_level := some PriorityLevel.ok }] ∧
    sweep_classify 7 2 288000
      { mkPost 2 2 2000 .pending with priority_level := some PriorityLevel.urgent }
      (some ⟨2, some 273600⟩) ≠ .remove := by
  constructor
  · rw [(C9_sweep_amended 7 2 288000
      [({ mkPost 1 1 1000 .pending with priority_level := some PriorityLevel.ok },
        some ⟨1, some 273600⟩),
       ({ mkPost 2 2 2000 .pending with priority_level := some PriorityLevel.urgent },
        some ⟨2, some 273600⟩)]).2.1]
    decide
  · exact (C9_sweep_amended 7 2 288000 []).2.2.2.1
      { mkPost 2 2 2000 .pending with priority_level := some PriorityLevel.urgent }
      (some ⟨2, some 273600⟩) rfl

/-! ### C4 — the slot-search loop is bounded and degrades gracefully -/

/-- The loop executes at most `fuel` passes, and when no pass ever breaks
(no candidate passed all checks) the returned value is exactly the
candidate produced by the final pass — the `fuel`-fold of the per-pass
update — rather than an error. -/
theorem assign_slot_loop_spec (cfg : Settings) (posts : List ScheduledPost) :
    ∀ fuel cand : Nat,
      (assign_slot_loop cfg posts fuel cand).2.1 ≤ fuel ∧
      ((assign_slot_loop cfg posts fuel cand).2.2 = false →
        (assign_slot_loop cfg posts fuel cand).1 =
          (slot_search_next cfg posts)^[fuel] cand) := by
  intro fuel
  induction fuel with
  | zero => exact fun cand => ⟨Nat.le_refl 0, fun _ => rfl⟩
  | succ fuel ih =>
    intro cand
    rw [Function.iterate_succ_apply]
    by_cases h₁ : cfg.posting_weekdays_only ∧
        (weekdayOf (normalize_to_posting_hours cfg cand) = 5 ∨
         weekdayOf (normalize_to_posting_hours cfg cand) = 6)
    · simp only [assign_slot_loop, slot_search_next, if_pos h₁]
      exact ⟨Nat.succ_le_succ (ih _).1, (ih _).2⟩
    · by_cases h₂ : cfg.daily_post_limit ≤
          count_posts_on_day posts (dayOf (normalize_to_posting_hours cfg cand))
      · simp only [assign_slot_loop, slot_search_next, if_neg h₁, if_pos h₂]
        exact ⟨Nat.succ_le_succ (ih _).1, (ih _).2⟩
      · rcases hlast : get_last_scheduled_time_before posts
            (normalize_to_posting_hours cfg cand) with _ | last
        · simp only [assign_slot_loop, slot_search_next, if_neg h₁, if_neg h₂, hlast]
          exact ⟨Nat.succ_le_succ (Nat.zero_le fuel), fun h => absurd h (by simp)⟩
        · by_cases h₃ : normalize_to_posting_hours cfg cand - last < cfg.min_spacing_minutes
          · simp only [assign_slot_loop, slot_search_next, if_neg h₁, if_neg h₂, hlast,
              if_pos h₃]
            exact ⟨Nat.succ_le_succ (ih _).1, (ih _).2⟩
          · simp only [assign_slot_loop, slot_search_next, if_neg h₁, if_neg h₂, hlast,
              if_neg h₃]
            exact ⟨Nat.succ_le_succ (Nat.zero_le fuel), fun h => absurd h (by simp)⟩

/-- C4: with `max_iterations = 365` the slot-search loop of
`assign_publish_slot` executes at most 365 passes on every input, and when
the ceiling is exhausted without any candidate passing all checks it still
terminates and hands back the last computed candidate (which the caller
then accepts and persists) instead of raising or looping forever. -/
theorem C4_slot_search_bounded (cfg : Settings) (posts : List ScheduledPost) (seed : Nat) :
    (assign_slot_loop cfg posts max_iterations seed).2.1 ≤ 365 ∧
    ((assign_slot_loop cfg posts max_iterations seed).2.2 = false →
      (assign_slot_loop cfg posts max_iterations seed).1 =
        (slot_search_next cfg posts)^[365] seed) :=
  assign_slot_loop_spec cfg posts max_iterations seed

/-- C4 witness: under the pathological configuration `daily_post_limit = 0`
no slot is ever valid; the loop runs its 365 passes, reports no success,
and returns the candidate of the last pass. -/
theorem C4_slot_search_bounded_witness :
    (assign_slot_loop zeroLimitSettings [] max_iterations 0).2.2 = false ∧
    (assign_slot_loop zeroLimitSettings [] max_iterations 0).2.1 ≤ 365 ∧
    (assign_slot_loop zeroLimitSettings [] max_iterations 0).1 =
      (slot_search_next zeroLimitSettings [])^[365] 0 :=
  ⟨by decide, (C4_slot_search_bounded zeroLimitSettings [] 0).1,
    (C4_slot_search_bounded zeroLimitSettings [] 0).2 (by decide)⟩

/-! ### Dedup lemmas shared by the scrub claims -/

theorem duplicates_subset : ∀ (l : List ScheduledPost) (seen : List Nat),
    ∀ i ∈ duplicates_to_delete l seen, i ∈ l.map (·.id)
  | [], _, i, hi => absurd hi (by simp [duplicates_to_delete])
  | p :: ps, seen, i, hi => by
    unfold duplicates_to_delete at hi
    split at hi
    · rcases List.mem_cons.mp hi with rfl | hi
      · exact List.mem_cons_self _ _
      · exact List.mem_cons_of_mem _ (duplicates_subset ps seen i hi)
    · exact List.mem_cons_of_mem _ (duplicates_subset ps _ i hi)

theorem filter_dups_eq_keepFirst :
    ∀ (l : List ScheduledPost) (seen : List Nat), (l.map (·.id)).Nodup →
    l.filter (fun r => decide (r.id ∉ duplicates_to_delete l seen)) = keepFirst l seen
  | [], _, _ => rfl
  | p :: ps, seen, h => by
    rw [List.map_cons, List.nodup_cons] at h
    obtain ⟨hp, hps⟩ := h
    unfold duplicates_to_delete keepFirst
    split
    · rw [List.filter_cons]
      rw [if_neg (by simp)]
      rw [List.filter_congr (fun r hr => ?_), filter_dups_eq_keepFirst ps seen hps]
      have : r.id ≠ p.id := fun he => hp (he ▸ List.mem_map_of_mem (·.id) hr)
      simp [this]
    · rw [List.filter_cons]
      have hpid : p.id ∉ duplicates_to_delete ps (p.post_id :: seen) := fun hmem =>
        hp (duplicates_subset ps _ p.id hmem)
      rw [if_pos (by simpa using hpid)]
      rw [filter_dups_eq_keepFirst ps _ hps]

theorem keepFirst_fresh : ∀ (l : List ScheduledPost) (seen : List Nat),
    (keepFirst l seen).Pairwise (fun a b => a.post_id ≠ b.post_id) ∧
    ∀ r ∈ keepFirst l seen, r.post_id ∉ seen
  | [], _ => ⟨List.Pairwise.nil, by simp [keepFirst]⟩
  | p :: ps, seen => by
    unfold keepFirst
    split
    · exact keepFirst_fresh ps seen
    · rename_i hseen
      obtain ⟨hpw, hfresh⟩ := keepFirst_fresh ps (p.post_id :: seen)
      refine ⟨List.pairwise_cons.mpr ⟨fun r hr => ?_, hpw⟩, fun r hr => ?_⟩
      · intro he
        exact hfresh r hr (he ▸ List.mem_cons_self _ _)
      · rcases List.mem_cons.mp hr with rfl | hr
        · exact hseen
        · exact fun hmem => hfresh r hr (List.mem_cons_of_mem _ hmem)

theorem keepFirst_subset : ∀ (l : List ScheduledPost) (seen : List Nat),
    ∀ r ∈ keepFirst l seen, r ∈ l
  | p :: ps, seen, r, hr => by
    unfold keepFirst at hr
    split at hr
    · exact List.mem_cons_of_mem _ (keepFirst_subset ps seen r hr)
    · rcases List.mem_cons.mp hr with rfl | hr
      · exact List.mem_cons_self _ _
      · exact List.mem_cons_of_mem _ (keepFirst_subset ps _ r hr)

theorem keepFirst_min : ∀ (l : List ScheduledPost) (seen : List Nat),
    l.Pairwise (fun a b => sched_le a b = true) →
    ∀ r ∈ keepFirst l seen, ∀ r' ∈ l, r'.post_id = r.post_id → r'.post_id ∉ seen →
      r.scheduled_for ≤ r'.scheduled_for
  | [], _, _, r, hr => absurd hr (by simp [keepFirst])
  | p :: ps, seen, hsort, r, hr => by
    obtain ⟨hhead, htail⟩ := List.pairwise_cons.mp hsort
    unfold keepFirst at hr
    split at hr
    · rename_i hseen
      intro r' hr' heq hnot
      rcases List.mem_cons.mp hr' with rfl | hr'
      · exact absurd hseen hnot
      · exact keepFirst_min ps seen htail r hr r' hr' heq hnot
    · rename_i hseen
      rcases List.mem_cons.mp hr with rfl | hr
      · intro r' hr' heq hnot
        rcases List.mem_cons.mp hr' with rfl | hr'
        · exact Nat.le_refl _
        · have := hhead r' hr'
          simpa [sched_le] using this
      · intro r' hr' heq hnot
        have hrfresh := (keepFirst_fresh ps (p.post_id :: seen)).2 r hr
        rcases List.mem_cons.mp hr' with rfl | hr'
        · exact absurd (heq ▸ List.mem_cons_self r.post_id seen)
            (fun hmem => hrfresh (heq ▸ List.mem_cons_self _ _))
        · exact keepFirst_min ps _ htail r hr r' hr' heq
            (fun hmem => by
              rcases List.mem_cons.mp hmem with he | hmem'
              · exact hrfresh (heq ▸ he ▸ List.mem_cons_self _ _)
              · exact hnot hmem')

theorem keepFirst_complete : ∀ (l : List ScheduledPost) (seen : List Nat),
    ∀ r' ∈ l, r'.post_id ∉ seen →
      ∃ r ∈ keepFirst l seen, r.post_id = r'.post_id
  | [], _, r', hr', _ => absurd hr' (by simp)
  | p :: ps, seen, r', hr', hnot => by
    unfold keepFirst
    split
    · rename_i hseen
      rcases List.mem_cons.mp hr' with he | hr'
      · subst he
        exact absurd hseen hnot
      · exact keepFirst_complete ps seen r' hr' hnot
    · rename_i hseen
      rcases List.mem_cons.mp hr' with he | hr'
      · subst he
        exact ⟨r', List.mem_cons_self _ _, rfl⟩
      · by_cases hpid : r'.post_id = p.post_id
        · exact ⟨p, List.mem_cons_self _ _, hpid.symm⟩
        · obtain ⟨r, hr, he⟩ := keepFirst_complete ps (p.post_id :: seen) r' hr'
            (by simp [hpid, hnot])
          exact ⟨r, List.mem_cons_of_mem _ hr, he⟩

theorem sched_le_trans : ∀ a b c : ScheduledPost,
    sched_le a b = true → sched_le b c = true → sched_le a c = true := by
  intro a b c
  simp [sched_le]
  omega

theorem sched_le_total : ∀ a b : ScheduledPost,
    sched_le a b = true ∨ sched_le b a = true := by
  intro a b
  simp [sched_le]
  omega

theorem nodup_ids_sortLe_filter (table : List ScheduledPost) (p : ScheduledPost → Bool)
    (h : (table.map (·.id)).Nodup) :
    ((sortLe sched_le (table.filter p)).map (·.id)).Nodup := by
  have hsub : (table.filter p).Sublist table := List.filter_sublist table
  have h1 : ((table.filter p).map (·.id)).Nodup := (hsub.map (·.id)).nodup h
  exact (((sortLe_perm sched_le (table.filter p)).map (·.id)).nodup_iff).mpr h1

theorem mem_pending_sorted {table : List ScheduledPost} {r : ScheduledPost} :
    r ∈ pending_sorted table ↔ r ∈ table ∧ r.status = .pending := by
  unfold pending_sorted
  rw [mem_sortLe, List.mem_filter]
  simp

/-! ### C6 — scrub's dedup keeps the earliest reservation per content id -/

/-- C6: after scrub's dedup step (dropping the rows collected by the
duplicate scan), the surviving PENDING reservations have pairwise distinct
`post_id`s; each surviving PENDING reservation has a `scheduled_for` no
later than any PENDING reservation of the same `post_id` in the original
table; and every PENDING reservation of the original table has a surviving
representative with its `post_id`. -/
theorem C6_dedup_keeps_earliest (table : List ScheduledPost)
    (hid : (table.map (·.id)).Nodup) :
    ((table.filter (fun r =>
        decide (r.id ∉ duplicates_to_delete (pending_sorted table) []))).filter
        (fun r => decide (r.status = .pending))).Pairwise
      (fun a b => a.post_id ≠ b.post_id) ∧
    (∀ r ∈ table.filter (fun r =>
        decide (r.id ∉ duplicates_to_delete (pending_sorted table) [])),
      r.status = .pending →
      ∀ r' ∈ table, r'.status = .pending → r'.post_id = r.post_id →
        r.scheduled_for ≤ r'.scheduled_for) ∧
    (∀ r' ∈ table, r'.status = .pending →
      ∃ r ∈ table.filter (fun r =>
        decide (r.id ∉ duplicates_to_delete (pending_sorted table) [])),
        r.status = .pending ∧ r.post_id = r'.post_id) := by
  have hsids : ((pending_sorted table).map (·.id)).Nodup :=
    nodup_ids_sortLe_filter table _ hid
  have hsort : (pending_sorted table).Pairwise (fun a b => sched_le a b = true) :=
    sortLe_pairwise sched_le_trans sched_le_total _
  have hkf : (pending_sorted table).filter (fun r =>
      decide (r.id ∉ duplicates_to_delete (pending_sorted table) [])) =
      keepFirst (pending_sorted table) [] :=
    filter_dups_eq_keepFirst _ [] hsids
  have hmem_kf : ∀ r, r ∈ keepFirst (pending_sorted table) [] ↔
      (r ∈ table ∧ r.status = .pending) ∧
      r.id ∉ duplicates_to_delete (pending_sorted table) [] := by
    intro r
    rw [← hkf, List.mem_filter, mem_pending_sorted]
    simp
  refine ⟨?_, ?_, ?_⟩
  · have hperm : List.Perm
        ((pending_sorted table).filter (fun r =>
          decide (r.id ∉ duplicates_to_delete (pending_sorted table) [])))
        ((table.filter (fun r => decide (r.status = .pending))).filter (fun r =>
          decide (r.id ∉ duplicates_to_delete (pending_sorted table) []))) :=
      (sortLe_perm sched_le _).filter _
    have hcomm : ((table.filter (fun r => decide (r.status = .pending))).filter (fun r =>
          decide (r.id ∉ duplicates_to_delete (pending_sorted table) []))) =
        ((table.filter (fun r =>
          decide (r.id ∉ duplicates_to_delete (pending_sorted table) []))).filter
          (fun r => decide (r.status = .pending))) := by
      rw [List.filter_filter, List.filter_filter]
      exact List.filter_congr (fun r _ => by rw [Bool.and_comm])
    rw [← hcomm]
    have hpw : ((pending_sorted table).filter (fun r =>
        decide (r.id ∉ duplicates_to_delete (pending_sorted table) []))).Pairwise
        (fun a b => a.post_id ≠ b.post_id) := by
      rw [hkf]
      exact (keepFirst_fresh _ []).1
    exact (hperm.pairwise_iff (fun h he => h he.symm)).mp hpw
  · intro r hrT1 hrpend r' hr' hr'pend heq
    rw [List.mem_filter] at hrT1
    have hrkf : r ∈ keepFirst (pending_sorted table) [] :=
      (hmem_kf r).mpr ⟨⟨hrT1.1, hrpend⟩, by simpa using hrT1.2⟩
    have hr's : r' ∈ pending_sorted table := mem_pending_sorted.mpr ⟨hr', hr'pend⟩
    exact keepFirst_min _ [] hsort r hrkf r' hr's heq (by simp)
  · intro r' hr' hr'pend
    have hr's : r' ∈ pending_sorted table := mem_pending_sorted.mpr ⟨hr', hr'pend⟩
    obtain ⟨r, hrkf, he⟩ := keepFirst_complete _ [] r' hr's (by simp)
    obtain ⟨⟨hrt, hrpend⟩, hrdup⟩ := (hmem_kf r).mp hrkf
    exact ⟨r, List.mem_filter.mpr ⟨hrt, by simpa using hrdup⟩, hrpend, he⟩

/-- C6 witness: on a concrete table with two PENDING rows sharing
`post_id = 7` (scheduled at 500 and 300) and one other row, the dedup
outcome keeps the 300-minute row and the survivors have distinct
`post_id`s. -/
theorem C6_dedup_keeps_earliest_witness :
    (([mkPost 1 7 500 .pending, mkPost 2 7 300 .pending,
        mkPost 3 8 400 .pending].filter (fun r =>
        decide (r.id ∉ duplicates_to_delete (pending_sorted
          [mkPost 1 7 500 .pending, mkPost 2 7 300 .pending,
           mkPost 3 8 400 .pending]) []))).filter
        (fun r => decide (r.status = .pending))).Pairwise
      (fun a b => a.post_id ≠ b.post_id) ∧
    (∀ r ∈ [mkPost 1 7 500 .pending, mkPost 2 7 300 .pending,
        mkPost 3 8 400 .pending].filter (fun r =>
        decide (r.id ∉ duplicates_to_delete (pending_sorted
          [mkPost 1 7 500 .pending, mkPost 2 7 300 .pending,
           mkPost 3 8 400 .pending]) [])),
      r.status = .pending →
      ∀ r' ∈ [mkPost 1 7 500 .pending, mkPost 2 7 300 .pending,
          mkPost 3 8 400 .pending], r'.status = .pending → r'.post_id = r.post_id →
        r.scheduled_for ≤ r'.scheduled_for) :=
  ⟨(C6_dedup_keeps_earliest _ (by decide)).1,
   (C6_dedup_keeps_earliest _ (by decide)).2.1⟩

/-! ### C5 — the weekdays-only invariant is violated by scrub and by the
retry backoff -/

/-- C5: with the default weekdays-only configuration the code produces
PENDING reservations scheduled on a Saturday.  (1) Scrub: its inner loop
checks the weekend BEFORE normalizing the posting hours and then breaks,
so from two PENDING posts at Friday 20:30/20:31 (minutes 6990/6991, day 4)
the second is reassigned to minute 7560 — Saturday 06:00 — even though
scrub's own docstring says it must respect weekends.  The same happens in
isolation: `scrub_find_slot` maps Friday 22:00 (7080) to Saturday 06:00
(7560).  (2) The retry backoff reschedules to `now + 30` minutes with no
weekday check: a failure at Saturday noon (7920) leaves a PENDING
reservation at Saturday 12:30 (7950). -/
theorem C5_weekday_violation :
    defaultSettings.posting_weekdays_only = true ∧
    (scrub_schedule_internal defaultSettings 6990
      [mkPost 1 1 6990 .pending, mkPost 2 2 6991 .pending]).map (·.scheduled_for) =
      [6990, 7560] ∧
    { mkPost 2 2 6991 .pending with scheduled_for := 7560 } ∈
      scrub_schedule_internal defaultSettings 6990
        [mkPost 1 1 6990 .pending, mkPost 2 2 6991 .pending] ∧
    ({ mkPost 2 2 6991 .pending with scheduled_for := 7560 } :
      ScheduledPost).status = .pending ∧
    weekdayOf 7560 = 5 ∧
    scrub_find_slot defaultSettings max_iterations 7080 = 7560 ∧
    weekdayOf 7080 = 4 ∧
    (publish_failure_update 7920 "publish failed"
      (mkPost 3 3 6990 .pending)).scheduled_for = 7950 ∧
    (publish_failure_update 7920 "publish failed"
      (mkPost 3 3 6990 .pending)).status = .pending ∧
    weekdayOf 7950 = 5 := by
  decide

/-! ### C7 — lemmas about scrub's slot loop and reflow -/

theorem priority_key_le_trans : ∀ a b c : ScheduledPost,
    priority_key_le a b = true → priority_key_le b c = true →
    priority_key_le a c = true := by
  intro a b c
  simp [priority_key_le]
  omega

theorem priority_key_le_total : ∀ a b : ScheduledPost,
    priority_key_le a b = true ∨ priority_key_le b a = true := by
  intro a b
  simp [priority_key_le]
  omega

theorem le_scrub_find_slot (cfg : Settings) : ∀ (fuel t : Nat),
    t ≤ scrub_find_slot cfg fuel t
  | 0, t => Nat.le_refl t
  | fuel + 1, t => by
    unfold scrub_find_slot
    split
    · exact Nat.le_trans (le_move_to_next_weekday cfg t)
        (le_scrub_find_slot cfg fuel _)
    · exact le_normalize cfg t

theorem scrub_find_slot_two (cfg : Settings)
    (hse : cfg.posting_hour_start < cfg.posting_hour_end)
    (he24 : cfg.posting_hour_end ≤ 24) :
    ∀ (fuel t : Nat),
    scrub_find_slot cfg (fuel + 2) t =
      if cfg.posting_weekdays_only ∧ (weekdayOf t = 5 ∨ weekdayOf t = 6) then
        move_to_next_weekday cfg t
      else normalize_to_posting_hours cfg t := by
  intro fuel t
  unfold scrub_find_slot
  split
  · unfold scrub_find_slot
    rw [if_neg, normalize_eq_of_in_hours (move_to_next_weekday_in_hours cfg t hse he24)]
    rw [weekday_move_to_next_weekday cfg t (by omega)]
    simp
  · rfl

theorem scrub_find_slot_365 (cfg : Settings)
    (hse : cfg.posting_hour_start < cfg.posting_hour_end)
    (he24 : cfg.posting_hour_end ≤ 24) (t : Nat) :
    scrub_find_slot cfg max_iterations t =
      if cfg.posting_weekdays_only ∧ (weekdayOf t = 5 ∨ weekdayOf t = 6) then
        move_to_next_weekday cfg t
      else normalize_to_posting_hours cfg t := by
  have h : max_iterations = 363 + 2 := rfl
  rw [h, scrub_find_slot_two cfg hse he24]

theorem scrub_find_slot_props (cfg : Settings)
    (hse : cfg.posting_hour_start < cfg.posting_hour_end)
    (he24 : cfg.posting_hour_end ≤ 24) {y : Nat} (hy : in_posting_hours cfg y) :
    in_posting_hours cfg (scrub_find_slot cfg max_iterations y) ∧
    ¬(cfg.posting_weekdays_only ∧
      (weekdayOf (scrub_find_slot cfg max_iterations y) = 5 ∨
       weekdayOf (scrub_find_slot cfg max_iterations y) = 6)) := by
  rw [scrub_find_slot_365 cfg hse he24]
  split
  · refine ⟨move_to_next_weekday_in_hours cfg y hse he24, ?_⟩
    rw [weekday_move_to_next_weekday cfg y (by omega)]
    simp
  · rename_i hcond
    rw [normalize_eq_of_in_hours hy]
    exact ⟨hy, hcond⟩

theorem scrub_find_slot_fix (cfg : Settings)
    (hse : cfg.posting_hour_start < cfg.posting_hour_end)
    (he24 : cfg.posting_hour_end ≤ 24) {y : Nat} (hy : in_posting_hours cfg y) :
    scrub_find_slot cfg max_iterations (scrub_find_slot cfg max_iterations y) =
      scrub_find_slot cfg max_iterations y := by
  obtain ⟨hin, hcond⟩ := scrub_find_slot_props cfg hse he24 hy
  rw [scrub_find_slot_365 cfg hse he24 (scrub_find_slot cfg max_iterations y)]
  rw [if_neg hcond]
  exact normalize_eq_of_in_hours hin

theorem scrub_reflow_ids (cfg : Settings) : ∀ (l : List ScheduledPost) (cur : Nat),
    (scrub_reflow cfg l cur).map (·.id) = l.map (·.id)
  | [], _ => rfl
  | p :: ps, cur => by
    unfold scrub_reflow
    rw [List.map_cons, List.map_cons, scrub_reflow_ids cfg ps _]

theorem mem_scrub_reflow_ge (cfg : Settings) : ∀ (l : List ScheduledPost) (cur : Nat),
    ∀ q ∈ scrub_reflow cfg l cur, cur ≤ q.scheduled_for
  | [], _, q, hq => absurd hq (by simp [scrub_reflow])
  | p :: ps, cur, q, hq => by
    unfold scrub_reflow at hq
    rcases List.mem_cons.mp hq with he | hq
    · subst he
      exact le_scrub_find_slot cfg max_iterations cur
    · have h := mem_scrub_reflow_ge cfg ps _ q hq
      have h2 := le_scrub_find_slot cfg max_iterations cur
      omega

theorem mem_scrub_reflow_src (cfg : Settings) : ∀ (l : List ScheduledPost) (cur : Nat),
    ∀ q ∈ scrub_reflow cfg l cur, ∃ p ∈ l, q.id = p.id ∧ q.post_id = p.post_id ∧
      q.status = p.status ∧ q.priority_level = p.priority_level
  | [], _, q, hq => absurd hq (by simp [scrub_reflow])
  | p :: ps, cur, q, hq => by
    unfold scrub_reflow at hq
    rcases List.mem_cons.mp hq with he | hq
    · subst he
      exact ⟨p, List.mem_cons_self _ _, rfl, rfl, rfl, rfl⟩
    · obtain ⟨p', hp', h⟩ := mem_scrub_reflow_src cfg ps _ q hq
      exact ⟨p', List.mem_cons_of_mem _ hp', h⟩

theorem scrub_reflow_sf_strict (cfg : Settings) (hsp : 0 < cfg.min_spacing_minutes) :
    ∀ (l : List ScheduledPost) (cur : Nat),
    (scrub_reflow cfg l cur).Pairwise (fun a b => a.scheduled_for < b.scheduled_for)
  | [], _ => List.Pairwise.nil
  | p :: ps, cur => by
    unfold scrub_reflow
    refine List.pairwise_cons.mpr ⟨fun q hq => ?_, scrub_reflow_sf_strict cfg hsp ps _⟩
    have h := mem_scrub_reflow_ge cfg ps _ q hq
    simp only
    omega

theorem scrub_reflow_pid_pairwise (cfg : Settings) :
    ∀ (l : List ScheduledPost) (cur : Nat),
    l.Pairwise (fun a b => a.post_id ≠ b.post_id) →
    (scrub_reflow cfg l cur).Pairwise (fun a b => a.post_id ≠ b.post_id)
  | [], _, _ => List.Pairwise.nil
  | p :: ps, cur, h => by
    obtain ⟨hp, hps⟩ := List.pairwise_cons.mp h
    unfold scrub_reflow
    refine List.pairwise_cons.mpr
      ⟨fun q hq => ?_, scrub_reflow_pid_pairwise cfg ps _ hps⟩
    obtain ⟨p', hp', _, hpid, _, _⟩ := mem_scrub_reflow_src cfg ps _ q hq
    simpa [hpid] using hp p' hp'

theorem scrub_reflow_pk_pairwise (cfg : Settings) :
    ∀ (l : List ScheduledPost) (cur : Nat),
    l.Pairwise (fun a b => priority_key_le a b = true) →
    (scrub_reflow cfg l cur).Pairwise (fun a b =>
      priorityOrder a.priority_level ≤ priorityOrder b.priority_level)
  | [], _, _ => List.Pairwise.nil
  | p :: ps, cur, h => by
    obtain ⟨hp, hps⟩ := List.pairwise_cons.mp h
    unfold scrub_reflow
    refine List.pairwise_cons.mpr
      ⟨fun q hq => ?_, scrub_reflow_pk_pairwise cfg ps _ hps⟩
    obtain ⟨p', hp', _, _, _, hpl⟩ := mem_scrub_reflow_src cfg ps _ q hq
    have := hp p' hp'
    simp [priority_key_le] at this
    simp only [hpl]
    omega

theorem scrub_reflow_cons (cfg : Settings) (p : ScheduledPost)
    (ps : List ScheduledPost) (cur : Nat) :
    scrub_reflow cfg (p :: ps) cur =
      { p with scheduled_for := scrub_find_slot cfg max_iterations cur } ::
        scrub_reflow cfg ps
          (scrub_find_slot cfg max_iterations cur + cfg.min_spacing_minutes) := rfl

theorem scrub_reflow_replay (cfg : Settings) :
    ∀ (l : List ScheduledPost) (cur : Nat),
    scrub_reflow cfg (scrub_reflow cfg l cur) cur = scrub_reflow cfg l cur
  | [], _ => rfl
  | p :: ps, cur => by
    rw [scrub_reflow_cons cfg p ps cur]
    rw [scrub_reflow_cons cfg _ _ cur]
    rw [scrub_reflow_replay cfg ps _]

theorem scrub_reflow_start_replay (cfg : Settings)
    (hse : cfg.posting_hour_start < cfg.posting_hour_end)
    (he24 : cfg.posting_hour_end ≤ 24) (l : List ScheduledPost) {cur : Nat}
    (hcur : in_posting_hours cfg cur) :
    scrub_reflow cfg (scrub_reflow cfg l cur) (scrub_find_slot cfg max_iterations cur) =
      scrub_reflow cfg l cur := by
  cases l with
  | nil => rfl
  | cons p ps =>
    rw [scrub_reflow_cons cfg p ps cur]
    rw [scrub_reflow_cons cfg _ _ (scrub_find_slot cfg max_iterations cur)]
    rw [scrub_find_slot_fix cfg hse he24 hcur]
    rw [scrub_reflow_replay cfg ps _]

theorem scrub_dedup_table_eq (S : List ScheduledPost) :
    scrub_dedup_table S = S.filter (fun r =>
      decide (r.id ∉ duplicates_to_delete (pending_sorted S) [])) := rfl

theorem lookup_mem : ∀ (A : List (Nat × Nat)) (k v : Nat),
    A.lookup k = some v → (k, v) ∈ A
  | [], k, v, h => by simp [List.lookup] at h
  | (k', v') :: es, k, v, h => by
    by_cases hk : k = k'
    · subst hk
      simp [List.lookup] at h
      subst h
      exact List.mem_cons_self _ _
    · have hb : (k == k') = false := beq_eq_false_iff_ne.mpr hk
      simp [List.lookup, hb] at h
      exact List.mem_cons_of_mem _ (lookup_mem es k v h)

theorem scrub_updater_id (cfg : Settings) (now : Nat)
    (pending2 : List ScheduledPost) (r : ScheduledPost) :
    (scrub_updater cfg now pending2 r).id = r.id := by
  unfold scrub_updater
  split <;> rfl

theorem scrub_updater_status (cfg : Settings) (now : Nat)
    (pending2 : List ScheduledPost) (r : ScheduledPost) :
    (scrub_updater cfg now pending2 r).status = r.status := by
  unfold scrub_updater
  split <;> rfl

theorem filter_map_comm {α β : Type} (f : α → β) (p : β → Bool) :
    ∀ l : List α, (l.map f).filter p = (l.filter (fun a => p (f a))).map f
  | [] => rfl
  | a :: l => by
    rw [List.map_cons, List.filter_cons, List.filter_cons, filter_map_comm f p l]
    by_cases h : p (f a)
    · rw [if_pos h, if_pos h, List.map_cons]
    · rw [if_neg h, if_neg h]

theorem duplicates_nil : ∀ (l : List ScheduledPost) (seen : List Nat),
    l.Pairwise (fun a b => a.post_id ≠ b.post_id) →
    (∀ r ∈ l, r.post_id ∉ seen) →
    duplicates_to_delete l seen = []
  | [], _, _, _ => rfl
  | p :: ps, seen, hpw, hfresh => by
    obtain ⟨hp, hps⟩ := List.pairwise_cons.mp hpw
    unfold duplicates_to_delete
    rw [if_neg (hfresh p (List.mem_cons_self _ _))]
    refine duplicates_nil ps _ hps (fun r hr => ?_)
    intro hmem
    rcases List.mem_cons.mp hmem with he | hmem'
    · exact hp r hr he.symm
    · exact hfresh r (List.mem_cons_of_mem _ hr) hmem'

theorem foldl_min_of_le : ∀ (ys : List Nat) (x : Nat),
    (∀ y ∈ ys, x ≤ y) → ys.foldl min x = x
  | [], _, _ => rfl
  | y :: ys, x, h => by
    rw [List.foldl_cons, Nat.min_eq_left (h y (List.mem_cons_self _ _))]
    exact foldl_min_of_le ys x (fun z hz => h z (List.mem_cons_of_mem _ hz))

theorem dedup_table_ids_nodup (table : List ScheduledPost)
    (hid : (table.map (·.id)).Nodup) :
    ((scrub_dedup_table table).map (·.id)).Nodup :=
  ((List.filter_sublist table).map (·.id)).nodup hid

/-- The PENDING rows surviving scrub's dedup are, as a multiset, exactly
the first-occurrence-per-`post_id` selection of the time-ordered list. -/
theorem dedup_pending_perm_keepFirst (table : List ScheduledPost)
    (hid : (table.map (·.id)).Nodup) :
    (pending_sorted (scrub_dedup_table table)).Perm
      (keepFirst (pending_sorted table) []) := by
  have hsids : ((pending_sorted table).map (·.id)).Nodup :=
    nodup_ids_sortLe_filter table _ hid
  have h1 : (pending_sorted (scrub_dedup_table table)).Perm
      ((scrub_dedup_table table).filter (fun r => decide (r.status = .pending))) :=
    sortLe_perm _ _
  have h2 : (scrub_dedup_table table).filter (fun r => decide (r.status = .pending)) =
      (table.filter (fun r => decide (r.status = .pending))).filter
        (fun r => decide (r.id ∉ duplicates_to_delete (pending_sorted table) [])) := by
    unfold scrub_dedup_table
    rw [List.filter_filter, List.filter_filter]
    exact List.filter_congr (fun r _ => by rw [Bool.and_comm])
  have h3 : ((table.filter (fun r => decide (r.status = .pending))).filter
        (fun r => decide (r.id ∉ duplicates_to_delete (pending_sorted table) []))).Perm
      ((pending_sorted table).filter
        (fun r => decide (r.id ∉ duplicates_to_delete (pending_sorted table) []))) :=
    (sortLe_perm sched_le _).symm.filter _
  have h4 : (pending_sorted table).filter
      (fun r => decide (r.id ∉ duplicates_to_delete (pending_sorted table) [])) =
      keepFirst (pending_sorted table) [] :=
    filter_dups_eq_keepFirst _ [] hsids
  exact ((h1.trans (h2 ▸ List.Perm.refl _)).trans h3).trans (h4 ▸ List.Perm.refl _)

theorem dedup_pending_nonempty (table : List ScheduledPost)
    (hid : (table.map (·.id)).Nodup)
    (h : (pending_sorted table).isEmpty = false) :
    (pending_sorted (scrub_dedup_table table)).isEmpty = false := by
  have hperm := dedup_pending_perm_keepFirst table hid
  rcases hs : pending_sorted table with _ | ⟨p, rest⟩
  · rw [hs] at h
    simp at h
  · have hkf : keepFirst (p :: rest) [] = p :: keepFirst rest [p.post_id] := by
      simp [keepFirst]
    rw [hs, hkf] at hperm
    have hlen := hperm.length_eq
    rcases he : pending_sorted (scrub_dedup_table table) with _ | _
    · rw [he] at hlen
      simp at hlen
    · simp

theorem dedup_pending_pid_pairwise (table : List ScheduledPost)
    (hid : (table.map (·.id)).Nodup) :
    (pending_sorted (scrub_dedup_table table)).Pairwise
      (fun a b => a.post_id ≠ b.post_id) := by
  have hperm := dedup_pending_perm_keepFirst table hid
  exact (hperm.symm.pairwise_iff (fun h he => h he.symm)).mp
    (keepFirst_fresh (pending_sorted table) []).1

/-- Applying the recorded assignments back to the very list they were
computed from reproduces the reflowed list (row ids are unique). -/
theorem map_lookup_reflow (cfg : Settings) : ∀ (l : List ScheduledPost) (cur : Nat),
    (l.map (·.id)).Nodup →
    l.map (fun r =>
      match ((scrub_reflow cfg l cur).map
          (fun q => (q.id, q.scheduled_for))).lookup r.id with
      | some t => { r with scheduled_for := t }
      | none => r) = scrub_reflow cfg l cur
  | [], _, _ => rfl
  | p :: ps, cur, h => by
    rw [List.map_cons, List.nodup_cons] at h
    obtain ⟨hp, hps⟩ := h
    rw [scrub_reflow_cons cfg p ps cur, List.map_cons, List.map_cons]
    congr 1
    · simp [List.lookup]
    · rw [List.map_congr_left (g := fun r =>
        match ((scrub_reflow cfg ps
            (scrub_find_slot cfg max_iterations cur + cfg.min_spacing_minutes)).map
            (fun q => (q.id, q.scheduled_for))).lookup r.id with
        | some t => { r with scheduled_for := t }
        | none => r) ?_]
      · exact map_lookup_reflow cfg ps _ hps
      · intro r hr
        have hne : r.id ≠ p.id := fun he =>
          hp (he ▸ List.mem_map_of_mem (·.id) hr)
        have hb : (r.id == p.id) = false := beq_eq_false_iff_ne.mpr hne
        simp only [List.lookup, hb]

/-- When the reflow of the PENDING rows is a fixpoint, applying scrub's
assignment map to the whole table is the identity. -/
theorem scrub_apply_id (cfg : Settings) (now : Nat) (S : List ScheduledPost)
    (hids : (S.map (·.id)).Nodup)
    (hmoved : scrub_moved cfg now (pending_sorted S) = pending_sorted S) :
    scrub_apply cfg now S (pending_sorted S) = S := by
  unfold scrub_apply
  have hcong : ∀ r ∈ S, scrub_updater cfg now (pending_sorted S) r = r := by
    intro r hr
    unfold scrub_updater
    rw [hmoved]
    rcases hlk : ((pending_sorted S).map
        (fun q => (q.id, q.scheduled_for))).lookup r.id with _ | t
    · rw [hlk]
    · rw [hlk]
      have hkv := lookup_mem _ _ _ hlk
      rw [List.mem_map] at hkv
      obtain ⟨q, hq, hqe⟩ := hkv
      have hqid : q.id = r.id := congrArg Prod.fst hqe
      have hqsf : q.scheduled_for = t := congrArg Prod.snd hqe
      have hqS : q ∈ S := (mem_pending_sorted.mp hq).1
      have heq : q = r := List.inj_on_of_nodup_map hids hqS hr hqid
      rw [← hqsf, heq]
  rw [List.map_congr_left hcong]
  simp

theorem scrub_moved_pkle (cfg : Settings) (hsp : 0 < cfg.min_spacing_minutes)
    (sorted₀ : List ScheduledPost) (cur₀ : Nat)
    (hpk : sorted₀.Pairwise (fun a b => priority_key_le a b = true)) :
    (scrub_reflow cfg sorted₀ cur₀).Pairwise (fun a b => priority_key_le a b = true) := by
  have h1 := scrub_reflow_pk_pairwise cfg sorted₀ cur₀ hpk
  have h2 := scrub_reflow_sf_strict cfg hsp sorted₀ cur₀
  refine (h1.and h2).imp ?_
  intro a b hab
  simp [priority_key_le]
  omega

/-- Reflowing an already-reflowed PENDING list from its own start time
changes nothing. -/
theorem scrub_moved_fix (cfg : Settings) (now : Nat)
    (hse : cfg.posting_hour_start < cfg.posting_hour_end)
    (he24 : cfg.posting_hour_end ≤ 24) (hsp : 0 < cfg.min_spacing_minutes)
    (sorted₀ : List ScheduledPost) (cur₀ : Nat)
    (hcur : in_posting_hours cfg cur₀) (hnow : now ≤ cur₀)
    (hpk : sorted₀.Pairwise (fun a b => priority_key_le a b = true))
    (hne : sorted₀ ≠ []) :
    scrub_moved cfg now (scrub_reflow cfg sorted₀ cur₀) =
      scrub_reflow cfg sorted₀ cur₀ := by
  have hMpk : (scrub_reflow cfg sorted₀ cur₀).Pairwise
      (fun a b => priority_key_le a b = true) := scrub_moved_pkle cfg hsp sorted₀ cur₀ hpk
  have hsorted_eq : scrub_sorted (scrub_reflow cfg sorted₀ cur₀) =
      scrub_reflow cfg sorted₀ cur₀ := sortLe_eq_of_pairwise hMpk
  rcases sorted₀ with _ | ⟨p, ps⟩
  · exact absurd rfl hne
  · have htau : now ≤ scrub_find_slot cfg max_iterations cur₀ :=
      Nat.le_trans hnow (le_scrub_find_slot cfg max_iterations cur₀)
    have hstrict := scrub_reflow_sf_strict cfg hsp (p :: ps) cur₀
    rw [scrub_reflow_cons cfg p ps cur₀] at hstrict hsorted_eq ⊢
    obtain ⟨hhead, _⟩ := List.pairwise_cons.mp hstrict
    have hstart : scrub_start now
        ({ p with scheduled_for := scrub_find_slot cfg max_iterations cur₀ } ::
          scrub_reflow cfg ps
            (scrub_find_slot cfg max_iterations cur₀ + cfg.min_spacing_minutes)) =
        scrub_find_slot cfg max_iterations cur₀ := by
      unfold scrub_start
      rw [hsorted_eq]
      rw [List.map_cons]
      have hmin : ((scrub_find_slot cfg max_iterations cur₀ ::
          (scrub_reflow cfg ps
            (scrub_find_slot cfg max_iterations cur₀ + cfg.min_spacing_minutes)).map
            (·.scheduled_for)).min?) =
          some (scrub_find_slot cfg max_iterations cur₀) := by
        show some _ = some _
        rw [foldl_min_of_le]
        intro y hy
        rw [List.mem_map] at hy
        obtain ⟨q, hq, he⟩ := hy
        have := hhead q hq
        simp only at this
        omega
      rw [hmin]
      exact Nat.max_eq_left htau
    have hnorm : normalize_to_posting_hours cfg
        (scrub_find_slot cfg max_iterations cur₀) =
        scrub_find_slot cfg max_iterations cur₀ :=
      normalize_eq_of_in_hours (scrub_find_slot_props cfg hse he24 hcur).1
    unfold scrub_moved
    rw [hsorted_eq, hstart, hnorm]
    rw [← scrub_reflow_cons cfg p ps cur₀]
    exact scrub_reflow_start_replay cfg hse he24 (p :: ps) hcur

/-- The PENDING rows of the table after scrub's reassignment, re-read in
`scheduled_for` order, are exactly the reflowed list. -/
theorem pending_sorted_scrub_apply (cfg : Settings) (now : Nat)
    (T1 : List ScheduledPost) (hT1ids : (T1.map (·.id)).Nodup)
    (hsp : 0 < cfg.min_spacing_minutes) :
    pending_sorted (scrub_apply cfg now T1 (pending_sorted T1)) =
      scrub_moved cfg now (pending_sorted T1) := by
  have hpids : ((pending_sorted T1).map (·.id)).Nodup :=
    nodup_ids_sortLe_filter T1 _ hT1ids
  have hsorted_ids : ((scrub_sorted (pending_sorted T1)).map (·.id)).Nodup :=
    (((sortLe_perm priority_key_le (pending_sorted T1)).map (·.id)).nodup_iff).mpr hpids
  have hmap : (scrub_sorted (pending_sorted T1)).map
      (scrub_updater cfg now (pending_sorted T1)) =
      scrub_moved cfg now (pending_sorted T1) :=
    map_lookup_reflow cfg (scrub_sorted (pending_sorted T1))
      (normalize_to_posting_hours cfg (scrub_start now (pending_sorted T1)))
      hsorted_ids
  have hfilter : (scrub_apply cfg now T1 (pending_sorted T1)).filter
      (fun r => decide (r.status = .pending)) =
      (T1.filter (fun r => decide (r.status = .pending))).map
        (scrub_updater cfg now (pending_sorted T1)) := by
    unfold scrub_apply
    rw [filter_map_comm]
    congr 1
    exact List.filter_congr (fun r _ => by rw [scrub_updater_status])
  have hperm : List.Perm
      ((scrub_apply cfg now T1 (pending_sorted T1)).filter
        (fun r => decide (r.status = .pending)))
      (scrub_moved cfg now (pending_sorted T1)) := by
    rw [hfilter, ← hmap]
    refine List.Perm.map _ ?_
    exact ((sortLe_perm sched_le _).symm).trans (sortLe_perm priority_key_le _).symm
  have hstrict : (scrub_moved cfg now (pending_sorted T1)).Pairwise
      (fun a b => a.scheduled_for < b.scheduled_for) :=
    scrub_reflow_sf_strict cfg hsp _ _
  have hsorted' : (pending_sorted (scrub_apply cfg now T1 (pending_sorted T1))).Pairwise
      (fun a b => sched_le a b = true) :=
    sortLe_pairwise sched_le_trans sched_le_total _
  have hperm2 : List.Perm (scrub_moved cfg now (pending_sorted T1))
      (pending_sorted (scrub_apply cfg now T1 (pending_sorted T1))) :=
    (hperm.symm).trans (sortLe_perm sched_le _).symm
  exact (eq_of_perm_of_pairwise
    (fun a b hR hS => by
      simp [sched_le] at hS
      omega)
    hperm2 hstrict hsorted').symm

/-! ### C7 — scrub is idempotent -/

/-- C7: with distinct row ids, a posting window `start < end ≤ 24` and a
positive minimum spacing, running scrub twice in succession with a fixed
clock leaves the reservation table exactly as after the first run, and the
second run's duplicate scan collects nothing (zero deletions, zero
reassignments). -/
theorem C7_scrub_idempotent (cfg : Settings) (now : Nat)
    (table : List ScheduledPost)
    (hid : (table.map (·.id)).Nodup)
    (hse : cfg.posting_hour_start < cfg.posting_hour_end)
    (he24 : cfg.posting_hour_end ≤ 24)
    (hsp : 0 < cfg.min_spacing_minutes) :
    scrub_schedule_internal cfg now (scrub_schedule_internal cfg now table) =
      scrub_schedule_internal cfg now table ∧
    duplicates_to_delete
      (pending_sorted (scrub_schedule_internal cfg now table)) [] = [] := by
  by_cases hemp : (pending_sorted table).isEmpty = true
  · have h1 : scrub_schedule_internal cfg now table = table := by
      unfold scrub_schedule_internal
      rw [if_pos hemp]
    have hnil : pending_sorted table = [] := List.isEmpty_iff.mp hemp
    rw [h1]
    exact ⟨h1, by rw [hnil]; rfl⟩
  · have hempf : (pending_sorted table).isEmpty = false :=
      Bool.not_eq_true _ ▸ eq_false_of_ne_true hemp
    have hT1ids : ((scrub_dedup_table table).map (·.id)).Nodup :=
      dedup_table_ids_nodup table hid
    have hs2e : (pending_sorted (scrub_dedup_table table)).isEmpty = false :=
      dedup_pending_nonempty table hid hempf
    have hS1eq : scrub_schedule_internal cfg now table =
        scrub_apply cfg now (scrub_dedup_table table)
          (pending_sorted (scrub_dedup_table table)) := by
      unfold scrub_schedule_internal
      rw [if_neg (by rw [hempf]; simp)]
      rw [if_neg (by rw [hs2e]; simp)]
    -- run-1 artifacts
    have hpend_eq : pending_sorted (scrub_apply cfg now (scrub_dedup_table table)
        (pending_sorted (scrub_dedup_table table))) =
        scrub_moved cfg now (pending_sorted (scrub_dedup_table table)) :=
      pending_sorted_scrub_apply cfg now (scrub_dedup_table table) hT1ids hsp
    have hp_pid : (pending_sorted (scrub_dedup_table table)).Pairwise
        (fun a b => a.post_id ≠ b.post_id) :=
      dedup_pending_pid_pairwise table hid
    have hsorted_pid : (scrub_sorted (pending_sorted (scrub_dedup_table table))).Pairwise
        (fun a b => a.post_id ≠ b.post_id) :=
      ((sortLe_perm priority_key_le _).symm.pairwise_iff
        (fun h he => h he.symm)).mp hp_pid
    have hsorted_pk : (scrub_sorted (pending_sorted (scrub_dedup_table table))).Pairwise
        (fun a b => priority_key_le a b = true) :=
      sortLe_pairwise priority_key_le_trans priority_key_le_total _
    have hsorted_ne : scrub_sorted (pending_sorted (scrub_dedup_table table)) ≠ [] := by
      intro hcon
      unfold scrub_sorted at hcon
      have hlen := (sortLe_perm priority_key_le
        (pending_sorted (scrub_dedup_table table))).length_eq
      rw [hcon] at hlen
      rcases hx : pending_sorted (scrub_dedup_table table) with _ | _
      · rw [hx] at hs2e
        simp at hs2e
      · rw [hx] at hlen
        simp at hlen
    have hcur_in : in_posting_hours cfg (normalize_to_posting_hours cfg
        (scrub_start now (pending_sorted (scrub_dedup_table table)))) :=
      normalize_in_hours cfg _ hse he24
    have hnow_cur : now ≤ normalize_to_posting_hours cfg
        (scrub_start now (pending_sorted (scrub_dedup_table table))) :=
      Nat.le_trans (Nat.le_max_right _ now) (le_normalize cfg _)
    have hMfix : scrub_moved cfg now
        (scrub_moved cfg now (pending_sorted (scrub_dedup_table table))) =
        scrub_moved cfg now (pending_sorted (scrub_dedup_table table)) :=
      scrub_moved_fix cfg now hse he24 hsp _ _ hcur_in hnow_cur hsorted_pk hsorted_ne
    have hM_pid : (scrub_moved cfg now
        (pending_sorted (scrub_dedup_table table))).Pairwise
        (fun a b => a.post_id ≠ b.post_id) :=
      scrub_reflow_pid_pairwise cfg _ _ hsorted_pid
    have hM_ne : (scrub_moved cfg now
        (pending_sorted (scrub_dedup_table table))).isEmpty = false := by
      rcases hx : scrub_sorted (pending_sorted (scrub_dedup_table table)) with _ | ⟨q, qs⟩
      · exact absurd hx hsorted_ne
      · unfold scrub_moved
        rw [hx, scrub_reflow_cons]
        rfl
    -- second-run facts
    have hC : duplicates_to_delete (pending_sorted (scrub_apply cfg now
        (scrub_dedup_table table) (pending_sorted (scrub_dedup_table table)))) [] = [] := by
      rw [hpend_eq]
      exact duplicates_nil _ [] hM_pid (by simp)
    have hS1ids : ((scrub_apply cfg now (scrub_dedup_table table)
        (pending_sorted (scrub_dedup_table table))).map (·.id)).Nodup := by
      unfold scrub_apply
      rw [List.map_map]
      have : ((scrub_dedup_table table).map
          (fun r => (scrub_updater cfg now (pending_sorted (scrub_dedup_table table)) r).id)) =
          (scrub_dedup_table table).map (·.id) :=
        List.map_congr_left (fun r _ => scrub_updater_id cfg now _ r)
      rw [Function.comp_def]
      rw [this]
      exact hT1ids
    have hdedup2 : scrub_dedup_table (scrub_apply cfg now (scrub_dedup_table table)
        (pending_sorted (scrub_dedup_table table))) =
        scrub_apply cfg now (scrub_dedup_table table)
          (pending_sorted (scrub_dedup_table table)) := by
      rw [scrub_dedup_table_eq (scrub_apply cfg now (scrub_dedup_table table)
        (pending_sorted (scrub_dedup_table table)))]
      rw [hC]
      exact List.filter_eq_self.mpr (fun r _ => by simp)
    have hpend2_ne : (pending_sorted (scrub_apply cfg now (scrub_dedup_table table)
        (pending_sorted (scrub_dedup_table table)))).isEmpty = false := by
      rw [hpend_eq]
      exact hM_ne
    have hfix2 : scrub_moved cfg now (pending_sorted (scrub_apply cfg now
        (scrub_dedup_table table) (pending_sorted (scrub_dedup_table table)))) =
        pending_sorted (scrub_apply cfg now (scrub_dedup_table table)
          (pending_sorted (scrub_dedup_table table))) := by
      rw [hpend_eq]
      exact hMfix
    have hrun2 : scrub_schedule_internal cfg now
        (scrub_apply cfg now (scrub_dedup_table table)
          (pending_sorted (scrub_dedup_table table))) =
        scrub_apply cfg now (scrub_dedup_table table)
          (pending_sorted (scrub_dedup_table table)) := by
      unfold scrub_schedule_internal
      rw [if_neg (by rw [hpend2_ne]; simp)]
      rw [hdedup2]
      rw [if_neg (by rw [hpend2_ne]; simp)]
      exact scrub_apply_id cfg now _ hS1ids hfix2
    rw [hS1eq]
    exact ⟨hrun2, hC⟩

/-- C7 witness: the idempotence theorem applied to a concrete table with a
duplicate PENDING pair and a PUBLISHED row under the default
configuration. -/
theorem C7_scrub_idempotent_witness :
    scrub_schedule_internal defaultSettings 6990
      (scrub_schedule_internal defaultSettings 6990
        [mkPost 1 7 6990 .pending, mkPost 2 7 6991 .pending,
         mkPost 3 8 7000 .published, mkPost 4 9 7005 .pending]) =
      scrub_schedule_internal defaultSettings 6990
        [mkPost 1 7 6990 .pending, mkPost 2 7 6991 .pending,
         mkPost 3 8 7000 .published, mkPost 4 9 7005 .pending] ∧
    duplicates_to_delete (pending_sorted (scrub_schedule_internal defaultSettings 6990
        [mkPost 1 7 6990 .pending, mkPost 2 7 6991 .pending,
         mkPost 3 8 7000 .published, mkPost 4 9 7005 .pending])) [] = [] :=
  C7_scrub_idempotent defaultSettings 6990
    [mkPost 1 7 6990 .pending, mkPost 2 7 6991 .pending,
     mkPost 3 8 7000 .published, mkPost 4 9 7005 .pending]
    (by decide) (by decide) (by decide) (by decide)

end Reposter
